import Mathlib

/-!
Verification of the gh-tools repository discovery / tree-walking spec
against a shallow Lean embedding of the Go source.

The embedding covers:
* the `size` package (`size.Parse`, its number and unit consumers);
* the `grep` content scanner of `cmd/gh-find` (binary sniffing,
  line-by-line matching with a match limit);
* the repository filter of `github/repo.go` (`RepoFilter`, `apply`,
  `RepoFinder.Find`);
* the walk loop of `cmd/gh-find/main.go` (`finder.find`), with remote
  calls (tree fetch, blob download, commit lookup) modelled as oracles.

Machine integers are modelled as `Int` with an explicit two's-complement
wrap (`wrap64`) at the points where Go's `int64` arithmetic can overflow.
Compiled regular expressions are modelled as boolean predicates on the
matched text, which is all the source ever does with them
(`MatchString` / `Match`).
-/

namespace size

/-- Two's-complement wrap of an integer into the `int64` range,
mirroring Go's wrapping `int64` multiplication. -/
def wrap64 (x : Int) : Int :=
  (x + 2 ^ 63) % 2 ^ 64 - 2 ^ 63

/-- ASCII whitespace recognised by `strings.TrimSpace` (the unicode
space classes beyond ASCII never occur in size strings). -/
def isSpaceChar (c : Char) : Bool :=
  c = ' ' || c = '\t' || c = '\n' || c = '\x0b' || c = '\x0c' || c = '\r'

/-- `strings.TrimSpace` on a character list: drop whitespace from both ends. -/
def trimSpace (cs : List Char) : List Char :=
  ((cs.dropWhile isSpaceChar).reverse.dropWhile isSpaceChar).reverse

/-- `strings.ToLower` restricted to ASCII letters, which is all the
unit suffixes contain. -/
def toLowerChar (c : Char) : Char :=
  if 'A' ≤ c ∧ c ≤ 'Z' then Char.ofNat (c.toNat + 32) else c

/-- Decimal digit test used by `parser.consumeNumber` (`b >= '0' && b <= '9'`). -/
def isDigitChar (c : Char) : Bool :=
  '0' ≤ c ∧ c ≤ '9'

/-- Value of a decimal digit string, as read by `strconv.ParseInt`. -/
def digitsToNat (cs : List Char) : Nat :=
  cs.foldl (fun acc c => acc * 10 + (c.toNat - 48)) 0

/-- The unit table of the `size` package: `units` maps a lowercase
suffix to its byte value (decimal k/m/g/t/p/e are powers of 1000,
binary ki/mi/gi/ti/pi/ei are powers of 1024, empty or `b` is bytes). -/
def unitValue (s : String) : Option Int :=
  match s with
  | "" => some 1
  | "b" => some 1
  | "k" => some 1000
  | "m" => some (1000 ^ 2)
  | "g" => some (1000 ^ 3)
  | "t" => some (1000 ^ 4)
  | "p" => some (1000 ^ 5)
  | "e" => some (1000 ^ 6)
  | "kb" => some 1000
  | "mb" => some (1000 ^ 2)
  | "gb" => some (1000 ^ 3)
  | "tb" => some (1000 ^ 4)
  | "pb" => some (1000 ^ 5)
  | "eb" => some (1000 ^ 6)
  | "ki" => some (2 ^ 10)
  | "mi" => some (2 ^ 20)
  | "gi" => some (2 ^ 30)
  | "ti" => some (2 ^ 40)
  | "pi" => some (2 ^ 50)
  | "ei" => some (2 ^ 60)
  | "kib" => some (2 ^ 10)
  | "mib" => some (2 ^ 20)
  | "gib" => some (2 ^ 30)
  | "tib" => some (2 ^ 40)
  | "pib" => some (2 ^ 50)
  | "eib" => some (2 ^ 60)
  | _ => none

/-- `parser.consumeNumber`: read the leading run of decimal digits off
the buffer.  An empty run yields the default number `1` with nothing
consumed; a run that overflows `int64` makes `strconv.ParseInt` fail,
which the source reports as a syntax error. -/
def consumeNumber (cs : List Char) : Except Unit (Int × List Char) :=
  let digits := cs.takeWhile isDigitChar
  let rest := cs.dropWhile isDigitChar
  if digits.isEmpty then .ok (1, cs)
  else if digitsToNat digits < 2 ^ 63 then .ok ((digitsToNat digits : Int), rest)
  else .error ()

/-- `parser.consumeUnit`: the remaining buffer, trimmed and lowercased,
must be a known unit suffix. -/
def consumeUnit (cs : List Char) : Except Unit Int :=
  match unitValue (String.mk ((trimSpace cs).map toLowerChar)) with
  | some u => .ok u
  | none => .error ()

/-- `size.Parse`: empty input is 0 bytes; otherwise consume the number,
then the unit, and return their product in wrapping `int64`
arithmetic (`return number * unit, nil` — no overflow check). -/
def Parse (value : String) : Except Unit Int :=
  if value = "" then .ok 0
  else
    match consumeNumber value.data with
    | .error _ => .error ()
    | .ok (number, rest) =>
      match consumeUnit rest with
      | .error _ => .error ()
      | .ok unit => .ok (wrap64 (number * unit))

end size

namespace ghfind

/-- One grep hit: the matched line's bytes and its 1-based line number
(`int64` in the source, hence `Int`). -/
structure GrepMatch where
  line : List Nat
  lineno : Int
  deriving DecidableEq

/-- Result of one `grep` call: binary-content flag plus the collected
matches. -/
structure GrepResults where
  isBinary : Bool
  found : List GrepMatch   -- `matches` in the source; reserved syntax in Lean.
  deriving DecidableEq

/-- `dropCR` of `bufio.ScanLines`: strip one trailing carriage return
from a line. -/
def dropCR (bs : List Nat) : List Nat :=
  match bs.getLast? with
  | some 13 => bs.dropLast
  | _ => bs

/-- Split a byte stream at every newline byte, keeping empty segments. -/
def splitNL : List Nat → List (List Nat)
  | [] => [[]]
  | 10 :: rest => [] :: splitNL rest
  | b :: rest =>
    match splitNL rest with
    | t :: ts => (b :: t) :: ts
    | [] => [[b]]

/-- The lines `bufio.Scanner` with `bufio.ScanLines` produces: split at
newlines, no extra empty line after a trailing newline, no line at all
for empty input, and a trailing `\r` stripped from every line. -/
def scanLines (bs : List Nat) : List (List Nat) :=
  match bs with
  | [] => []
  | _ =>
    let parts := splitNL bs
    let parts := if bs.getLast? = some 10 then parts.dropLast else parts
    parts.map dropCR

/-- The scanning loop of `grep`: before each line the limit is checked
(`limit > 0 && len(results.matches) >= limit` stops the scan), then the
line counter is incremented and the line tested against the pattern. -/
def scanLoop (pattern : List Nat → Bool) (limit : Int) :
    List (List Nat) → Int → List GrepMatch → List GrepMatch
  | [], _, acc => acc
  | l :: rest, lineno, acc =>
    if 0 < limit ∧ limit ≤ (acc.length : Int) then acc
    else if pattern l then
      scanLoop pattern limit rest (lineno + 1) (acc ++ [⟨l, lineno + 1⟩])
    else
      scanLoop pattern limit rest (lineno + 1) acc

/-- `grep` from `cmd/gh-find`: nil contents or nil pattern yield an
empty result; a zero byte among the first 256 bytes classifies the
stream as binary with no matches; otherwise the stream is scanned line
by line up to the limit.  The 256-byte peek is on a buffered reader and
consumes nothing. -/
def grep (contents : Option (List Nat)) (pattern : Option (List Nat → Bool))
    (limit : Int) : GrepResults :=
  match contents, pattern with
  | some bs, some p =>
    if (bs.take 256).any (fun b => b == 0) then ⟨true, []⟩
    else ⟨false, scanLoop p limit (scanLines bs) 0 []⟩
  | _, _ => ⟨false, []⟩

end ghfind

namespace github

/-- The fields of `github.Repository` the repo finder reads. -/
structure Repository where
  name : String
  fullName : String
  defaultBranch : String
  archived : Bool
  priv : Bool          -- `Private` in the source; `private` is reserved in Lean.
  fork : Bool
  deriving DecidableEq

/-- `github.RepoFilter`: the criteria used to filter repositories.  The
compiled `RepoRegexp` is modelled as a predicate on the repository
name, which is all `apply` does with it (`MatchString`). -/
structure RepoFilter where
  Owner : String
  Repo : String
  RepoRegexp : Option (String → Bool)
  Archived : Bool
  NoPrivate : Bool
  NoPublic : Bool
  NoFork : Bool

/-- One repository survives `apply`: the source's loop body with its
`continue`s, checked in order — archived, private/public, fork, name
regexp. -/
def keep (filter : RepoFilter) (repo : Repository) : Bool :=
  if repo.archived ∧ ¬filter.Archived then false
  else if repo.priv ∧ filter.NoPrivate then false
  else if ¬repo.priv ∧ filter.NoPublic then false
  else if repo.fork ∧ filter.NoFork then false
  else
    match filter.RepoRegexp with
    | some re => re repo.name
    | none => true

/-- `apply` from `github/repo.go`: keep exactly the repositories that
survive every check (the source's preallocated slice trimmed to `n`
is just the filtered list). -/
def apply (repos : List Repository) (filter : RepoFilter) : List Repository :=
  repos.filter (keep filter)

/-- Distinguished errors surfaced by `RepoFinder.Find` (the source
wraps underlying API errors in these messages). -/
inductive FindErr
  | ownerLookup      -- "can not read owner information"
  | repoNotFound     -- "can not read repository"
  | listFailed       -- "can not read repositories"
  | unknownOwnerType
  deriving DecidableEq

/-- The remote API surface `RepoFinder.Find` consumes, as oracles: the
owner-type lookup, the single-repository fetch, and the two paginated
listings (each given as its sequence of pages, or a failure). -/
structure RepoWorld where
  ownerType : String → Except Unit String
  getRepo : String → String → Except Unit Repository
  userPages : Except Unit (List (List Repository))
  orgPages : Except Unit (List (List Repository))

/-- `RepoFinder.userRepos` / `RepoFinder.orgRepos`: paginate, applying
the filter per page and accumulating. -/
def listRepos (pages : Except Unit (List (List Repository)))
    (filter : RepoFilter) : Except FindErr (List Repository) :=
  match pages with
  | .error _ => .error .listFailed
  | .ok ps => .ok (ps.foldl (fun acc page => acc ++ apply page filter) [])

/-- `RepoFinder.Find`: the `NoPrivate && NoPublic` short-circuit comes
first (returning `nil, nil`), then owner resolution, then single-repo
mode when `filter.Repo` is non-empty, then the paginated listing
matching the owner type. -/
def Find (w : RepoWorld) (filter : RepoFilter) : Except FindErr (List Repository) :=
  if filter.NoPrivate ∧ filter.NoPublic then .ok []
  else
    match w.ownerType filter.Owner with
    | .error _ => .error .ownerLookup
    | .ok t =>
      if filter.Repo ≠ "" then
        match w.getRepo filter.Owner filter.Repo with
        | .error _ => .error .repoNotFound
        | .ok r => .ok [r]
      else
        match t with
        | "User" => listRepos w.userPages filter
        | "Organization" => listRepos w.orgPages filter
        | _ => .error .unknownOwnerType

end github

namespace ghfind

/-- `sizePredicate` from `cmd/gh-find`: op 0 is equality, op 1 is
at-least, anything else (the source only ever stores -1) is at-most. -/
structure SizePredicate where
  op : Int
  value : Int
  deriving DecidableEq

/-- `sizePredicate.match`: the op-code switch of the source. -/
def sizePredMatch (p : SizePredicate) (value : Int) : Bool :=
  if p.op = 0 then value == p.value
  else if p.op = 1 then p.value ≤ value
  else value ≤ p.value

/-- The `config` struct of `cmd/gh-find`, restricted to the fields
`finder.find` reads.  Compiled regexes are predicates on the matched
text. -/
structure Config where
  repo : String
  branch : String
  ftype : String
  minDepth : Int
  maxDepth : Int
  maxResults : Int
  maxRepoResults : Int
  maxGrepResults : Int
  nameRegexp : List (String → Bool)
  noNameRegexp : List (String → Bool)
  pathRegexp : List (String → Bool)
  noPathRegexp : List (String → Bool)
  grepRegexp : Option (List Nat → Bool)
  noGrepRegexp : Option (List Nat → Bool)
  size : Option SizePredicate
  noMatches : Bool
  listDetails : Bool

/-- The `-no-matches` normalisation at the end of `readConfig`: entering
that mode forces no overall limit, one match per repository and one
grep match. -/
def normalize (c : Config) : Config :=
  if c.noMatches then
    { c with maxResults := 0, maxRepoResults := 1, maxGrepResults := 1 }
  else c

/-- A tree entry as `finder.find` reads it: slash-separated path, type
string (`"blob"` or `"tree"`), size in bytes. -/
structure TreeEntry where
  path : String
  typ : String
  size : Int
  deriving DecidableEq

/-- Outcome of the recursive-tree fetch for one repository:
the entry list plus truncation flag, or one of the two tolerated
statuses (404 not-found, 409 conflict for an empty repository), or any
other error. -/
inductive TreeFetch
  | ok (entries : List TreeEntry) (truncated : Bool)
  | notFound
  | conflict
  | failed
  deriving DecidableEq

/-- The remote calls `finder.find` makes besides repository discovery,
as oracles keyed by repository name, ref and path. -/
structure World where
  getTree : String → String → TreeFetch
  contentOf : String → String → String → List Nat
  commitAuthor : String → String → String → String
  commitDate : String → String → String → String

/-- `levels`: `len(path) - len(ReplaceAll(path, "/", "")) + 1`, i.e. the
number of slash bytes plus one. -/
def levels (path : String) : Int :=
  ((path.data.filter (fun c => c = '/')).length : Int) + 1

/-- The basename component produced by `path.Split`: everything after
the last slash. -/
def basename (p : String) : String :=
  String.mk ((p.data.reverse.takeWhile (fun c => ¬(c = '/'))).reverse)

/-- `matchAny`: first regex in the list that matches wins. -/
def matchAny (s : String) (regexes : List (String → Bool)) : Bool :=
  regexes.any (fun re => re s)

/-- `entryType`: `"d"` for trees, `"f"` for blobs, empty otherwise. -/
def entryType (typ : String) : String :=
  if typ = "tree" then "d" else if typ = "blob" then "f" else ""

/-- What can abort the walk in the model: the nil-pointer dereference of
a nil `grepContents` result, or a non-tolerated tree-fetch failure. -/
inductive WalkErr
  | nilDeref
  | treeFetch
  deriving DecidableEq

/-- One emitted output line of `finder.find`. -/
inductive Out
  | grepLine (repoFull path : String) (lineno : Int) (line : List Nat)
  | plainLine (repoFull path : String)
  | detailLine (repoFull ftype author : String) (size : Int) (date path : String)
  | repoLine (repoFull : String)
  deriving DecidableEq

/-- `finder.grepContents`: returns nil when no positive grep pattern is
configured, otherwise downloads the blob and greps it with
`f.config.grepRegexp` — note: always the positive pattern, whatever the
caller wanted to scan for. -/
def grepContents (cfg : Config) (w : World) (repo : github.Repository)
    (branch : String) (entry : TreeEntry) (limit : Int) : Option GrepResults :=
  match cfg.grepRegexp with
  | none => none
  | some _ => some (grep (some (w.contentOf repo.name branch entry.path)) cfg.grepRegexp limit)

/-- Result of processing one tree entry: stop the whole walk (global
budget), skip to the next repository (per-repository budget), continue
with counter increments and emitted lines, or abort with an error. -/
inductive EntryStep
  | stopWalk
  | skipRepo
  | cont (dMatched dRepoMatched : Int) (out : List Out)
  | fail (e : WalkErr)
  deriving DecidableEq

/-- Lines 460-496 of `finder.find`: the positive-grep branch (counts a
matching file once and emits one line per matching line unless in
no-matches mode), else the plain / detailed emission of the entry
itself. -/
def grepStage (cfg : Config) (w : World) (repo : github.Repository)
    (branch : String) (entry : TreeEntry) : EntryStep :=
  if cfg.grepRegexp.isSome ∧ entry.typ = "blob" then
    match grepContents cfg w repo branch entry cfg.maxGrepResults with
    | none => .fail .nilDeref
    | some results =>
      .cont (if 0 < results.found.length then 1 else 0)
        (if 0 < results.found.length then 1 else 0)
        (if cfg.noMatches then []
         else results.found.map (fun m => Out.grepLine repo.fullName entry.path m.lineno m.line))
  else
    .cont 1 1
      (if cfg.noMatches then []
       else if cfg.listDetails then
         [Out.detailLine repo.fullName (entryType entry.typ)
            (w.commitAuthor repo.name branch entry.path) entry.size
            (w.commitDate repo.name branch entry.path) entry.path]
       else [Out.plainLine repo.fullName entry.path])

/-- Lines 449-458 of `finder.find`: the no-grep rejection stage.  It
calls `grepContents` (which greps with the *positive* pattern and
returns nil when that pattern is unset — dereferencing the nil result
is the modelled panic), rejects the entry when matches were found, and
otherwise falls through to the positive-grep / emission stage. -/
def contentStage (cfg : Config) (w : World) (repo : github.Repository)
    (branch : String) (entry : TreeEntry) : EntryStep :=
  if cfg.noGrepRegexp.isSome ∧ entry.typ = "blob" then
    match grepContents cfg w repo branch entry 1 with
    | none => .fail .nilDeref
    | some results =>
      if 0 < results.found.length then .cont 0 0 []
      else grepStage cfg w repo branch entry
  else grepStage cfg w repo branch entry

/-- `sizePredicate` rejection: a configured predicate that the entry
size fails. -/
def sizeRejects (p : Option SizePredicate) (v : Int) : Bool :=
  match p with
  | some sp => !sizePredMatch sp v
  | none => false

/-- The per-entry body of `finder.find` (lines 396-496): budget checks,
then the depth / type / size / path / name predicates in source order
with short-circuit, then the content stage. -/
def processEntry (cfg : Config) (w : World) (repo : github.Repository)
    (branch : String) (matched repoMatched : Int) (entry : TreeEntry) : EntryStep :=
  if 0 < cfg.maxResults ∧ cfg.maxResults ≤ matched then .stopWalk
  else if 0 < cfg.maxRepoResults ∧ cfg.maxRepoResults ≤ repoMatched then .skipRepo
  else if 0 < cfg.minDepth ∧ levels entry.path < cfg.minDepth then .cont 0 0 []
  else if 0 < cfg.maxDepth ∧ cfg.maxDepth < levels entry.path then .cont 0 0 []
  else if cfg.ftype = "f" ∧ ¬(entry.typ = "blob") then .cont 0 0 []
  else if cfg.ftype = "d" ∧ ¬(entry.typ = "tree") then .cont 0 0 []
  else if sizeRejects cfg.size entry.size then .cont 0 0 []
  else if ¬cfg.noPathRegexp.isEmpty ∧ matchAny entry.path cfg.noPathRegexp then .cont 0 0 []
  else if ¬cfg.pathRegexp.isEmpty ∧ ¬matchAny entry.path cfg.pathRegexp then .cont 0 0 []
  else if ¬cfg.noNameRegexp.isEmpty ∧ matchAny (basename entry.path) cfg.noNameRegexp then .cont 0 0 []
  else if ¬cfg.nameRegexp.isEmpty ∧ ¬matchAny (basename entry.path) cfg.nameRegexp then .cont 0 0 []
  else contentStage cfg w repo branch entry

/-- Outcome of the entry loop for one repository. -/
inductive EntriesOut
  | finished (matched repoMatched : Int) (out : List Out)
  | stopped (out : List Out)
  | failed (e : WalkErr) (out : List Out)
  deriving DecidableEq

/-- The `nextEntry` loop: thread the counters and emitted lines through
`processEntry` until the entries run out, the walk stops, the
repository is skipped, or an error aborts. -/
def processEntries (cfg : Config) (w : World) (repo : github.Repository)
    (branch : String) :
    List TreeEntry → Int → Int → List Out → EntriesOut
  | [], m, rm, out => .finished m rm out
  | e :: rest, m, rm, out =>
    match processEntry cfg w repo branch m rm e with
    | .stopWalk => .stopped out
    | .skipRepo => .finished m rm out
    | .cont dm drm o => processEntries cfg w repo branch rest (m + dm) (rm + drm) (out ++ o)
    | .fail er => .failed er out

/-- What `finder.find` leaves on the output streams when it returns:
stdout lines, stderr truncation warnings, and the error if any.
Already-emitted lines stay in `out` even when an error aborts. -/
structure FindResult where
  out : List Out
  warnings : List String
  err : Option WalkErr
  deriving DecidableEq

/-- The deferred no-matches print (lines 366-368 and 499-501): the
previous repository's full name is printed once iff no-matches mode is
on and it produced zero matches. -/
def prevEmit (cfg : Config) (prev : Option (String × Int)) : List Out :=
  match prev with
  | some (full, rm) => if cfg.noMatches ∧ rm = 0 then [Out.repoLine full] else []
  | none => []

/-- The `nextRepo` loop of `finder.find`: per iteration, flush the
previous repository's no-matches print, check the global budget,
resolve the branch, fetch the tree (skipping 404/409, aborting on any
other failure), warn on truncation, and run the entry loop. -/
def findLoop (cfg : Config) (w : World) :
    List github.Repository → Int → Option (String × Int) → List Out → List String →
    FindResult
  | [], _, prev, out, warns => ⟨out ++ prevEmit cfg prev, warns, none⟩
  | repo :: rest, m, prev, out, warns =>
    let out1 := out ++ prevEmit cfg prev
    if 0 < cfg.maxResults ∧ cfg.maxResults ≤ m then ⟨out1, warns, none⟩
    else
      let branch := if cfg.branch = "" then repo.defaultBranch else cfg.branch
      match w.getTree repo.name branch with
      | .notFound => findLoop cfg w rest m (some (repo.fullName, 0)) out1 warns
      | .conflict => findLoop cfg w rest m (some (repo.fullName, 0)) out1 warns
      | .failed => ⟨out1, warns, some .treeFetch⟩
      | .ok entries truncated =>
        let warns2 := if truncated then warns ++ [repo.fullName] else warns
        match processEntries cfg w repo branch entries m 0 [] with
        | .stopped o => ⟨out1 ++ o, warns2, none⟩
        | .failed e o => ⟨out1 ++ o, warns2, some e⟩
        | .finished m2 rm2 o =>
          findLoop cfg w rest m2 (some (repo.fullName, rm2)) (out1 ++ o) warns2

/-- `finder.find` given the resolved repository set: run the walk from
zeroed counters with nothing yet printed. -/
def find (cfg : Config) (w : World) (repos : List github.Repository) : FindResult :=
  findLoop cfg w repos 0 none [] []

/-- Spec-side description of grepping (ContentScanner contract): the
matching lines of a line list, each paired with its 1-based line number,
numbering starting after a prefix of `k` lines already read.  Used as
the reference point the scanning loop is proved against. -/
def grepSpec (p : List Nat → Bool) : Int → List (List Nat) → List GrepMatch
  | _, [] => []
  | k, l :: rest =>
    if p l then ⟨l, k + 1⟩ :: grepSpec p (k + 1) rest
    else grepSpec p (k + 1) rest

/-- The stdout lines carried by an entry-loop outcome. -/
def entriesOutLines : EntriesOut → List Out
  | .finished _ _ o => o
  | .stopped o => o
  | .failed _ o => o

/-- Per-repository match count in isolation (valid whenever the global
budget is off, in which case the entry loop is independent of the
global counter): the final per-repository counter of the entry loop,
zero for skipped or failed repositories. -/
def repoMatchCount (cfg : Config) (w : World) (repo : github.Repository) : Int :=
  let branch := if cfg.branch = "" then repo.defaultBranch else cfg.branch
  match w.getTree repo.name branch with
  | .ok entries _ =>
    match processEntries cfg w repo branch entries 0 0 [] with
    | .finished _ rm _ => rm
    | _ => 0
  | _ => 0

end ghfind

/-! Concrete repositories, worlds and configurations used to instantiate
the theorems below on closed inputs. -/

/-- A plain public repository. -/
def sampleRepo : github.Repository :=
  { name := "r1", fullName := "o/r1", defaultBranch := "main",
    archived := false, priv := false, fork := false }

/-- A second repository whose tree fetch reports 404 in `sampleWorld`. -/
def sampleRepo2 : github.Repository :=
  { name := "r2", fullName := "o/r2", defaultBranch := "main",
    archived := false, priv := false, fork := false }

/-- A third repository whose tree fetch fails hard in `sampleWorld`. -/
def sampleRepo3 : github.Repository :=
  { name := "r3", fullName := "o/r3", defaultBranch := "main",
    archived := false, priv := false, fork := false }

/-- A concrete remote: `r1` holds a file `README.md` with content
`"hello"` and a directory `src`; `r2` has no fetchable tree (404);
`r3`'s tree fetch fails with a non-tolerated error. -/
def sampleWorld : ghfind.World :=
  { getTree := fun n _ =>
      if n = "r2" then .notFound
      else if n = "r3" then .failed
      else .ok [⟨"README.md", "blob", 10⟩, ⟨"src", "tree", 0⟩] false,
    contentOf := fun _ _ _ => [104, 101, 108, 108, 111],
    commitAuthor := fun _ _ _ => "alice",
    commitDate := fun _ _ _ => "Jan 1 00:00:00 2021" }

/-- The all-defaults `gh-find` configuration: no filters, no limits. -/
def cfgBase : ghfind.Config :=
  { repo := "", branch := "", ftype := "", minDepth := 0, maxDepth := 0,
    maxResults := 0, maxRepoResults := 0, maxGrepResults := 0,
    nameRegexp := [], noNameRegexp := [], pathRegexp := [], noPathRegexp := [],
    grepRegexp := none, noGrepRegexp := none, size := none,
    noMatches := false, listDetails := false }

/-- A concrete repo-finder remote: the owner is a user with the single
repository `sampleRepo`, listed on one page. -/
def sampleRepoWorld : github.RepoWorld :=
  { ownerType := fun _ => .ok "User",
    getRepo := fun _ _ => .ok sampleRepo,
    userPages := .ok [[sampleRepo]],
    orgPages := .ok [] }

/-! Helper lemmas. -/

/-- Every unit in the table is nonnegative and fits in `int64`. -/
theorem unitValue_bound {s : String} {u : Int} (h : size.unitValue s = some u) :
    0 ≤ u ∧ u < 2 ^ 63 := by
  unfold size.unitValue at h
  split at h <;> simp_all <;> omega

/-- `wrap64` is the identity on the `int64` range. -/
theorem wrap64_eq_self {x : Int} (h0 : -(2 ^ 63) ≤ x) (h1 : x < 2 ^ 63) :
    size.wrap64 x = x := by
  unfold size.wrap64
  omega

/-- Claim C7: `size.Parse` maps the spec's positive examples to the
stated byte counts (case-insensitive suffixes, decimal powers of 1000,
binary powers of 1024, bare numbers as bytes) and rejects the four
malformed examples with a syntax error. -/
theorem size_parse_examples :
    size.Parse "" = .ok 0 ∧
    size.Parse "0" = .ok 0 ∧
    size.Parse "1" = .ok 1 ∧
    size.Parse "10b" = .ok 10 ∧
    size.Parse "500mb" = .ok (500 * 10 ^ 6) ∧
    size.Parse "24Gb" = .ok (24 * 10 ^ 9) ∧
    size.Parse "18 Tib" = .ok (18 * 2 ^ 40) ∧
    size.Parse "5 EiB" = .ok (5 * 2 ^ 60) ∧
    size.Parse "foo" = .error () ∧
    size.Parse "5bar" = .error () ∧
    size.Parse "10 KBaz" = .error () ∧
    size.Parse "-5 Mb" = .error () :=
  ⟨rfl, rfl, rfl, rfl, rfl, rfl, rfl, rfl, rfl, rfl, rfl, rfl⟩

/-- Claim C9: an input that is just a recognised unit suffix (no leading
digits) parses successfully to one times that unit — `consumeNumber`
defaults an empty digit run to 1 instead of failing. -/
theorem size_parse_unit_only_defaults_one (c : Char) (cs : List Char) (u : Int)
    (hc : size.isDigitChar c = false)
    (hu : size.unitValue
        (String.mk ((size.trimSpace (c :: cs)).map size.toLowerChar)) = some u) :
    size.Parse (String.mk (c :: cs)) = .ok u := by
  have hne : String.mk (c :: cs) ≠ "" := by
    intro h
    exact absurd (congrArg String.data h) (by simp)
  have hnum : size.consumeNumber (c :: cs) = .ok (1, c :: cs) := by
    unfold size.consumeNumber
    simp [List.takeWhile_cons, hc]
  have hunit : size.consumeUnit (c :: cs) = .ok u := by
    unfold size.consumeUnit
    rw [hu]
  have hb := unitValue_bound hu
  unfold size.Parse
  rw [if_neg hne]
  show (match size.consumeNumber (c :: cs) with
    | .error _ => (Except.error () : Except Unit Int)
    | .ok (number, rest) =>
      match size.consumeUnit rest with
      | .error _ => Except.error ()
      | .ok unit => Except.ok (size.wrap64 (number * unit))) = Except.ok u
  simp only [hnum, hunit, one_mul]
  rw [wrap64_eq_self (by omega) hb.2]

/-- Witness for C9 at the concrete inputs `"kb"` and `"GiB"`. -/
theorem size_parse_unit_only_defaults_one_witness :
    size.Parse "kb" = .ok 1000 ∧ size.Parse "GiB" = .ok (2 ^ 30) :=
  ⟨size_parse_unit_only_defaults_one 'k' ['b'] 1000 rfl rfl,
   size_parse_unit_only_defaults_one 'G' ['i', 'B'] (2 ^ 30) rfl rfl⟩

/-- Claim C10: the final `number * unit` multiplication is unchecked
`int64` arithmetic, so the syntactically valid `"8ei"` (8 × 2^60 = 2^63
bytes) wraps to the negative value −2^63 and is returned with no
error. -/
theorem size_parse_overflow_wraps :
    size.Parse "8ei" = .ok (size.wrap64 (8 * 2 ^ 60)) ∧
    size.Parse "8ei" = .ok (-(2 ^ 63)) ∧
    (8 * 2 ^ 60 : Int) = 2 ^ 63 ∧
    (-(2 ^ 63) : Int) < 0 :=
  ⟨rfl, rfl, by norm_num, by norm_num⟩

/-- Claim C1 (refuted — code bug): the no-grep stage is supposed to scan
the file with the no-grep pattern and reject on a match.  Instead
`grepContents` always greps with the positive pattern.  First conjunct:
with only `-no-grep` configured (an always-matching pattern, content
`"hello"`), the walk dereferences the nil `grepContents` result and
dies instead of rejecting the file.  Second conjunct: with a positive
pattern that matches the content and a no-grep pattern that never
matches, the claim demands the grep line be emitted, but the no-grep
stage (scanning with the positive pattern) rejects the file and nothing
is emitted. -/
theorem no_grep_uses_positive_pattern_bug :
    ghfind.find { cfgBase with ftype := "f", noGrepRegexp := some (fun _ => true) }
        sampleWorld [sampleRepo] = ⟨[], [], some .nilDeref⟩ ∧
    ghfind.find
        { cfgBase with
            ftype := "f",
            grepRegexp := some (fun bs => bs = [104, 101, 108, 108, 111]),
            noGrepRegexp := some (fun _ => false) }
        sampleWorld [sampleRepo] = ⟨[], [], none⟩ ∧
    (⟨[], [], none⟩ : ghfind.FindResult) ≠
      ⟨[.grepLine "o/r1" "README.md" 1 [104, 101, 108, 108, 111]], [], none⟩ :=
  ⟨rfl, rfl, by decide⟩

/-- Counterexample to claim C2: with `Repo` non-empty and both
`NoPrivate` and `NoPublic` set, `Find` returns the empty list (the
mutual-exclusion short-circuit runs before single-repo mode), not the
one-element sequence, even though the single-repository fetch would
succeed. -/
theorem single_repo_mode_both_flags_counterexample :
    github.Find sampleRepoWorld ⟨"o", "r1", none, false, true, true, false⟩ = .ok [] ∧
    sampleRepoWorld.getRepo "o" "r1" = .ok sampleRepo ∧
    ("r1" : String) ≠ "" ∧
    (Except.ok [] : Except github.FindErr (List github.Repository)) ≠ .ok [sampleRepo] :=
  ⟨rfl, rfl, by decide, by simp⟩

/-- Claim C2 as amended: provided not both `NoPrivate` and `NoPublic`
are set, a non-empty `Repo` makes `Find` fetch exactly that repository
after owner resolution — the result is the one-element sequence on
success and a failure otherwise, independent of `Archived`, `NoFork`,
`RepoRegexp` and the individual private/public flags. -/
theorem single_repo_mode_amended (w : github.RepoWorld) (filter : github.RepoFilter)
    (hr : filter.Repo ≠ "")
    (hnp : ¬(filter.NoPrivate = true ∧ filter.NoPublic = true)) :
    github.Find w filter =
      match w.ownerType filter.Owner with
      | .error _ => .error .ownerLookup
      | .ok _ =>
        match w.getRepo filter.Owner filter.Repo with
        | .error _ => .error .repoNotFound
        | .ok r => .ok [r] := by
  unfold github.Find
  rw [if_neg hnp]
  cases w.ownerType filter.Owner with
  | error e => rfl
  | ok t =>
    show (if filter.Repo ≠ "" then
        match w.getRepo filter.Owner filter.Repo with
        | Except.error _ => Except.error github.FindErr.repoNotFound
        | Except.ok r => Except.ok [r]
      else
        match t with
        | "User" => github.listRepos w.userPages filter
        | "Organization" => github.listRepos w.orgPages filter
        | _ => Except.error github.FindErr.unknownOwnerType) =
      match w.getRepo filter.Owner filter.Repo with
      | Except.error _ => Except.error github.FindErr.repoNotFound
      | Except.ok r => Except.ok [r]
    rw [if_pos hr]

/-- Witness for the amended C2: single-repo fetch of a public repository
succeeds and yields a one-element list even with `Archived`, `NoPublic`
and `NoFork` all set. -/
theorem single_repo_mode_amended_witness :
    github.Find sampleRepoWorld ⟨"o", "r1", none, true, false, true, true⟩ =
      .ok [sampleRepo] :=
  (single_repo_mode_amended sampleRepoWorld ⟨"o", "r1", none, true, false, true, true⟩
    (by decide) (by simp)).trans rfl

/-- Claim C3: the per-repository predicate keeps a repository exactly
when it survives the five checks (archived, private, public, fork, name
regex — evaluated in that source order with short-circuit); `apply` is
the pure filter by that predicate, so both visibility flags set, a
never-matching name regex, or an empty input each give an empty
result. -/
theorem repo_filter_predicate :
    (∀ (filter : github.RepoFilter) (r : github.Repository),
       github.keep filter r = true ↔
         ¬(r.archived = true ∧ filter.Archived = false) ∧
         ¬(r.priv = true ∧ filter.NoPrivate = true) ∧
         ¬(r.priv = false ∧ filter.NoPublic = true) ∧
         ¬(r.fork = true ∧ filter.NoFork = true) ∧
         (∀ re, filter.RepoRegexp = some re → re r.name = true)) ∧
    (∀ repos filter, github.apply repos filter = repos.filter (github.keep filter)) ∧
    (∀ repos (filter : github.RepoFilter), filter.NoPrivate = true →
       filter.NoPublic = true → github.apply repos filter = []) ∧
    (∀ repos (filter : github.RepoFilter) re, filter.RepoRegexp = some re →
       (∀ s, re s = false) → github.apply repos filter = []) ∧
    (∀ filter, github.apply [] filter = []) := by
  have hkeep : ∀ (filter : github.RepoFilter) (r : github.Repository),
      github.keep filter r = true ↔
        ¬(r.archived = true ∧ filter.Archived = false) ∧
        ¬(r.priv = true ∧ filter.NoPrivate = true) ∧
        ¬(r.priv = false ∧ filter.NoPublic = true) ∧
        ¬(r.fork = true ∧ filter.NoFork = true) ∧
        (∀ re, filter.RepoRegexp = some re → re r.name = true) := by
    intro filter r
    unfold github.keep
    rcases hre : filter.RepoRegexp with _ | re <;>
      split_ifs with h1 h2 h3 h4 <;> simp_all
  refine ⟨hkeep, fun _ _ => rfl, ?_, ?_, fun _ => rfl⟩
  · intro repos filter hp hq
    unfold github.apply
    rw [List.filter_eq_nil_iff]
    intro r _ hr
    rcases (hkeep filter r).mp hr with ⟨-, h2, h3, -, -⟩
    cases hpriv : r.priv with
    | true => exact h2 ⟨hpriv, hp⟩
    | false => exact h3 ⟨hpriv, hq⟩
  · intro repos filter re hre hnever
    unfold github.apply
    rw [List.filter_eq_nil_iff]
    intro r _ hr
    have := ((hkeep filter r).mp hr).2.2.2.2 re hre
    rw [hnever r.name] at this
    exact absurd this (by simp)

/-- Witness for C3: the predicate characterisation and the empty results
at concrete inputs. -/
theorem repo_filter_predicate_witness :
    github.apply [sampleRepo] ⟨"o", "", none, false, true, true, false⟩ = [] ∧
    github.apply [sampleRepo] ⟨"o", "", some (fun _ => false), false, false, false, false⟩ = [] ∧
    github.keep ⟨"o", "", none, false, false, false, false⟩ sampleRepo = true :=
  ⟨repo_filter_predicate.2.2.1 [sampleRepo] _ rfl rfl,
   repo_filter_predicate.2.2.2.1 [sampleRepo] _ (fun _ => false) rfl (fun _ => rfl),
   (repo_filter_predicate.1 _ sampleRepo).mpr
     (by refine ⟨?_, ?_, ?_, ?_, ?_⟩ <;> simp [sampleRepo])⟩

/-- With a positive limit, the scanning loop collects exactly the
reference matches truncated to the remaining budget. -/
theorem scanLoop_pos (p : List Nat → Bool) (L : Int) (hL : 0 < L) :
    ∀ (lines : List (List Nat)) (k : Int) (acc : List ghfind.GrepMatch),
      ghfind.scanLoop p L lines k acc =
        acc ++ (ghfind.grepSpec p k lines).take (L.toNat - acc.length) := by
  intro lines
  induction lines with
  | nil => intro k acc; simp [ghfind.scanLoop, ghfind.grepSpec]
  | cons l rest ih =>
    intro k acc
    by_cases hfull : L ≤ (acc.length : Int)
    · rw [ghfind.scanLoop, if_pos ⟨hL, hfull⟩]
      have h0 : L.toNat - acc.length = 0 := by omega
      simp [h0]
    · rw [ghfind.scanLoop, if_neg (by intro hc; exact hfull hc.2)]
      by_cases hp : p l
      · rw [if_pos hp, ih, ghfind.grepSpec, if_pos hp]
        have h1 : L.toNat - acc.length = (L.toNat - (acc.length + 1)) + 1 := by omega
        rw [h1, List.take_succ_cons]
        simp
      · rw [if_neg hp, ih, ghfind.grepSpec, if_neg hp]

/-- With limit at most zero, the scanning loop collects every reference
match. -/
theorem scanLoop_nonpos (p : List Nat → Bool) (L : Int) (hL : L ≤ 0) :
    ∀ (lines : List (List Nat)) (k : Int) (acc : List ghfind.GrepMatch),
      ghfind.scanLoop p L lines k acc = acc ++ ghfind.grepSpec p k lines := by
  intro lines
  induction lines with
  | nil => intro k acc; simp [ghfind.scanLoop, ghfind.grepSpec]
  | cons l rest ih =>
    intro k acc
    rw [ghfind.scanLoop, if_neg (by intro hc; omega)]
    by_cases hp : p l
    · rw [if_pos hp, ih, ghfind.grepSpec, if_pos hp]
      simp
    · rw [if_neg hp, ih, ghfind.grepSpec, if_neg hp]

/-- The reference match list has one element per matching line. -/
theorem grepSpec_length (p : List Nat → Bool) :
    ∀ (lines : List (List Nat)) (k : Int),
      (ghfind.grepSpec p k lines).length = lines.countP p := by
  intro lines
  induction lines with
  | nil => intro k; simp [ghfind.grepSpec]
  | cons l rest ih =>
    intro k
    rw [ghfind.grepSpec]
    by_cases hp : p l
    · rw [if_pos hp]
      simp [List.countP_cons, hp, ih]
    · rw [if_neg hp]
      simp [List.countP_cons, hp, ih]

/-- Every reference match carries a matching line and its position:
line numbers are consecutive after the prefix `k` and index back into
the line list. -/
theorem grepSpec_mem (p : List Nat → Bool) :
    ∀ (lines : List (List Nat)) (k : Int) (m : ghfind.GrepMatch),
      m ∈ ghfind.grepSpec p k lines →
      p m.line = true ∧ k < m.lineno ∧ m.lineno ≤ k + lines.length ∧
        lines.get? (m.lineno - k - 1).toNat = some m.line := by
  intro lines
  induction lines with
  | nil => intro k m hm; simp [ghfind.grepSpec] at hm
  | cons l rest ih =>
    intro k m hm
    rw [ghfind.grepSpec] at hm
    by_cases hp : p l
    · rw [if_pos hp] at hm
      rcases List.mem_cons.mp hm with h | h
      · subst h
        refine ⟨hp, by show k < k + 1; omega, by simp, ?_⟩
        have h0 : (k + 1 - k - 1).toNat = 0 := by omega
        simp [h0]
      · obtain ⟨h1, h2, h3, h4⟩ := ih (k + 1) m h
        refine ⟨h1, by omega, by simp; omega, ?_⟩
        have hs : (m.lineno - k - 1).toNat = (m.lineno - (k + 1) - 1).toNat + 1 := by omega
        rw [hs]
        simpa using h4
    · rw [if_neg hp] at hm
      obtain ⟨h1, h2, h3, h4⟩ := ih (k + 1) m hm
      refine ⟨h1, by omega, by simp; omega, ?_⟩
      have hs : (m.lineno - k - 1).toNat = (m.lineno - (k + 1) - 1).toNat + 1 := by omega
      rw [hs]
      simpa using h4

/-- A pattern that never matches produces no reference matches. -/
theorem grepSpec_never (p : List Nat → Bool) (hnever : ∀ l, p l = false) :
    ∀ (lines : List (List Nat)) (k : Int), ghfind.grepSpec p k lines = [] := by
  intro lines
  induction lines with
  | nil => intro k; rfl
  | cons l rest ih =>
    intro k
    rw [ghfind.grepSpec, if_neg (by simp [hnever l]), ih]

/-- Claim C5: a stream with a zero byte in its first 256 bytes is
classified binary with zero matches regardless of pattern; otherwise
the result is non-binary, has `min N L` matches for limit `L > 0` and
all `N` matches for `L ≤ 0` (where `N` counts the matching lines),
every match carries its correct 1-based line number into the original
line list, and a never-matching pattern gives an empty, non-error
result. -/
theorem content_scanner_contract :
    (∀ (bs : List Nat) (p : List Nat → Bool) (L : Int),
       ((bs.take 256).any (fun b => b == 0)) = true →
       ghfind.grep (some bs) (some p) L = ⟨true, []⟩) ∧
    (∀ (bs : List Nat) (p : List Nat → Bool) (L : Int),
       ((bs.take 256).any (fun b => b == 0)) = false →
       (ghfind.grep (some bs) (some p) L).isBinary = false ∧
       (0 < L →
          (ghfind.grep (some bs) (some p) L).found.length =
            min ((ghfind.scanLines bs).countP p) L.toNat) ∧
       (L ≤ 0 →
          (ghfind.grep (some bs) (some p) L).found.length =
            (ghfind.scanLines bs).countP p) ∧
       (∀ m ∈ (ghfind.grep (some bs) (some p) L).found,
          1 ≤ m.lineno ∧ m.lineno ≤ ((ghfind.scanLines bs).length : Int) ∧
          (ghfind.scanLines bs).get? (m.lineno - 1).toNat = some m.line ∧
          p m.line = true)) ∧
    (∀ (bs : List Nat) (p : List Nat → Bool) (L : Int),
       (∀ l, p l = false) → (ghfind.grep (some bs) (some p) L).found = []) := by
  refine ⟨?_, ?_, ?_⟩
  · intro bs p L hbin
    simp only [ghfind.grep]
    rw [if_pos hbin]
  · intro bs p L hbin
    have hgrep : ghfind.grep (some bs) (some p) L =
        ⟨false, ghfind.scanLoop p L (ghfind.scanLines bs) 0 []⟩ := by
      simp only [ghfind.grep]
      rw [if_neg (by simp [hbin])]
    rw [hgrep]
    refine ⟨rfl, ?_, ?_, ?_⟩
    · intro hL
      rw [scanLoop_pos p L hL]
      simp [List.length_take, grepSpec_length, Nat.min_comm]
    · intro hL
      rw [scanLoop_nonpos p L hL]
      simp [grepSpec_length]
    · intro m hm
      have hm2 : m ∈ ghfind.grepSpec p 0 (ghfind.scanLines bs) := by
        by_cases hL : 0 < L
        · rw [scanLoop_pos p L hL] at hm
          simp only [List.nil_append] at hm
          exact List.take_subset _ _ hm
        · rw [scanLoop_nonpos p L (by omega)] at hm
          simpa using hm
      obtain ⟨h1, h2, h3, h4⟩ := grepSpec_mem p (ghfind.scanLines bs) 0 m hm2
      refine ⟨by omega, by omega, ?_, h1⟩
      have hs : m.lineno - 1 = m.lineno - 0 - 1 := by omega
      rw [hs]
      exact h4
  · intro bs p L hnever
    simp only [ghfind.grep]
    by_cases hbin : ((bs.take 256).any (fun b => b == 0)) = true
    · rw [if_pos hbin]
    · rw [if_neg hbin]
      show ghfind.scanLoop p L (ghfind.scanLines bs) 0 [] = []
      by_cases hL : 0 < L
      · rw [scanLoop_pos p L hL, grepSpec_never p hnever]
        simp
      · rw [scanLoop_nonpos p L (by omega), grepSpec_never p hnever]
        simp

/-- Witness for C5 on concrete streams: a binary stream, a text stream
`"a\nb\na"` grepped for `"a"` with and without a limit, and a
never-matching pattern. -/
theorem content_scanner_contract_witness :
    ghfind.grep (some [0, 97]) (some (fun _ => true)) 5 = ⟨true, []⟩ ∧
    (ghfind.grep (some [97, 10, 98, 10, 97]) (some (fun l => l = [97])) 1).found.length =
      min ((ghfind.scanLines [97, 10, 98, 10, 97]).countP (fun l => l = [97])) 1 ∧
    (ghfind.grep (some [97, 10, 98, 10, 97]) (some (fun l => l = [97])) 0).found.length =
      (ghfind.scanLines [97, 10, 98, 10, 97]).countP (fun l => l = [97]) ∧
    (ghfind.grep (some [97, 98]) (some (fun _ => false)) 0).found = [] :=
  ⟨content_scanner_contract.1 [0, 97] (fun _ => true) 5 (by decide),
   (content_scanner_contract.2.1 [97, 10, 98, 10, 97] (fun l => l = [97]) 1
      (by decide)).2.1 (by decide),
   (content_scanner_contract.2.1 [97, 10, 98, 10, 97] (fun l => l = [97]) 0
      (by decide)).2.2.1 (by decide),
   content_scanner_contract.2.2 [97, 98] (fun _ => false) 0 (fun _ => rfl)⟩

/-- Claim C8: when a repository's recursive-tree fetch reports 404
(no such ref) or 409 (empty repository), the walk skips that repository
and continues with the rest, with no error; any other tree-fetch
failure returns the error immediately, keeping everything already
emitted. -/
theorem tree_fetch_error_handling
    (cfg : ghfind.Config) (w : ghfind.World) (repo : github.Repository)
    (rest : List github.Repository) (m : Int) (prev : Option (String × Int))
    (out : List ghfind.Out) (warns : List String) (br : String)
    (hglob : ¬(0 < cfg.maxResults ∧ cfg.maxResults ≤ m))
    (hbr : br = (if cfg.branch = "" then repo.defaultBranch else cfg.branch)) :
    (w.getTree repo.name br = .notFound ∨ w.getTree repo.name br = .conflict →
       ghfind.findLoop cfg w (repo :: rest) m prev out warns =
         ghfind.findLoop cfg w rest m (some (repo.fullName, 0))
           (out ++ ghfind.prevEmit cfg prev) warns) ∧
    (w.getTree repo.name br = .failed →
       ghfind.findLoop cfg w (repo :: rest) m prev out warns =
         ⟨out ++ ghfind.prevEmit cfg prev, warns, some .treeFetch⟩) := by
  subst hbr
  constructor
  · intro h
    rcases h with h | h <;>
      · simp only [ghfind.findLoop]
        rw [if_neg hglob, h]
  · intro h
    simp only [ghfind.findLoop]
    rw [if_neg hglob, h]

/-- Witness for C8: in `sampleWorld`, repository `r2` (404) is skipped
and the walk just moves on, while `r3` (hard failure) aborts with the
tree-fetch error and the empty prior output intact. -/
theorem tree_fetch_error_handling_witness :
    ghfind.findLoop cfgBase sampleWorld [sampleRepo2] 0 none [] [] =
      ghfind.findLoop cfgBase sampleWorld [] 0 (some ("o/r2", 0)) [] [] ∧
    ghfind.findLoop cfgBase sampleWorld [sampleRepo3] 0 none [] [] =
      ⟨[], [], some .treeFetch⟩ :=
  ⟨((tree_fetch_error_handling cfgBase sampleWorld sampleRepo2 [] 0 none [] [] "main"
      (by decide) rfl).1 (Or.inl rfl)).trans rfl,
   ((tree_fetch_error_handling cfgBase sampleWorld sampleRepo3 [] 0 none [] [] "main"
      (by decide) rfl).2 rfl).trans rfl⟩

/-- The grep/emission stage either dies on a nil result or continues,
adding the same amount — zero or one — to both counters. -/
theorem grepStage_shape (cfg : ghfind.Config) (w : ghfind.World)
    (repo : github.Repository) (br : String) (e : ghfind.TreeEntry) :
    ghfind.grepStage cfg w repo br e = .fail .nilDeref ∨
    ∃ d o, (d = 0 ∨ d = 1) ∧ ghfind.grepStage cfg w repo br e = .cont d d o := by
  by_cases h : (cfg.grepRegexp.isSome = true ∧ e.typ = "blob")
  · cases hg : ghfind.grepContents cfg w repo br e cfg.maxGrepResults with
    | none =>
      left
      unfold ghfind.grepStage
      rw [if_pos h, hg]
    | some results =>
      by_cases hl : 0 < results.found.length
      · refine Or.inr ⟨1, ?_, Or.inr rfl, ?_⟩
        · exact if cfg.noMatches = true then []
            else results.found.map
              (fun m => ghfind.Out.grepLine repo.fullName e.path m.lineno m.line)
        · unfold ghfind.grepStage
          rw [if_pos h, hg]
          simp [hl]
      · refine Or.inr ⟨0, ?_, Or.inl rfl, ?_⟩
        · exact if cfg.noMatches = true then []
            else results.found.map
              (fun m => ghfind.Out.grepLine repo.fullName e.path m.lineno m.line)
        · unfold ghfind.grepStage
          rw [if_pos h, hg]
          simp [hl]
  · refine Or.inr ⟨1, ?_, Or.inr rfl, ?_⟩
    · exact if cfg.noMatches = true then []
        else if cfg.listDetails = true then
          [ghfind.Out.detailLine repo.fullName (ghfind.entryType e.typ)
            (w.commitAuthor repo.name br e.path) e.size
            (w.commitDate repo.name br e.path) e.path]
        else [ghfind.Out.plainLine repo.fullName e.path]
    · unfold ghfind.grepStage
      rw [if_neg h]

/-- The whole content stage has the same shape as the grep stage
(the no-grep rejection continues with zero increments). -/
theorem contentStage_shape (cfg : ghfind.Config) (w : ghfind.World)
    (repo : github.Repository) (br : String) (e : ghfind.TreeEntry) :
    ghfind.contentStage cfg w repo br e = .fail .nilDeref ∨
    ∃ d o, (d = 0 ∨ d = 1) ∧ ghfind.contentStage cfg w repo br e = .cont d d o := by
  by_cases h : (cfg.noGrepRegexp.isSome = true ∧ e.typ = "blob")
  · cases hg : ghfind.grepContents cfg w repo br e 1 with
    | none =>
      left
      unfold ghfind.contentStage
      rw [if_pos h, hg]
    | some results =>
      have hred : ghfind.contentStage cfg w repo br e =
          if 0 < results.found.length then .cont 0 0 []
          else ghfind.grepStage cfg w repo br e := by
        unfold ghfind.contentStage
        rw [if_pos h, hg]
      by_cases hl : 0 < results.found.length
      · rw [hred, if_pos hl]
        exact Or.inr ⟨0, [], Or.inl rfl, rfl⟩
      · rw [hred, if_neg hl]
        exact grepStage_shape cfg w repo br e
  · have hred : ghfind.contentStage cfg w repo br e =
        ghfind.grepStage cfg w repo br e := by
      unfold ghfind.contentStage
      rw [if_neg h]
    rw [hred]
    exact grepStage_shape cfg w repo br e


/-- Processing one entry stops the walk, skips the repository, fails,
or continues with equal increments of zero or one on both counters. -/
theorem processEntry_shape (cfg : ghfind.Config) (w : ghfind.World)
    (repo : github.Repository) (br : String) (m rm : Int) (e : ghfind.TreeEntry) :
    ghfind.processEntry cfg w repo br m rm e = .stopWalk ∨
    ghfind.processEntry cfg w repo br m rm e = .skipRepo ∨
    ghfind.processEntry cfg w repo br m rm e = .fail .nilDeref ∨
    ∃ d o, (d = 0 ∨ d = 1) ∧
      ghfind.processEntry cfg w repo br m rm e = .cont d d o := by
  by_cases h1 : 0 < cfg.maxResults ∧ cfg.maxResults ≤ m
  · exact Or.inl (by unfold ghfind.processEntry; rw [if_pos h1])
  by_cases h2 : 0 < cfg.maxRepoResults ∧ cfg.maxRepoResults ≤ rm
  · exact Or.inr (Or.inl (by unfold ghfind.processEntry; rw [if_neg h1, if_pos h2]))
  by_cases h3 : 0 < cfg.minDepth ∧ ghfind.levels e.path < cfg.minDepth
  · exact Or.inr (Or.inr (Or.inr ⟨0, [], Or.inl rfl,
      by unfold ghfind.processEntry; rw [if_neg h1, if_neg h2, if_pos h3]⟩))
  by_cases h4 : 0 < cfg.maxDepth ∧ cfg.maxDepth < ghfind.levels e.path
  · exact Or.inr (Or.inr (Or.inr ⟨0, [], Or.inl rfl,
      by unfold ghfind.processEntry; rw [if_neg h1, if_neg h2, if_neg h3, if_pos h4]⟩))
  by_cases h5 : cfg.ftype = "f" ∧ ¬e.typ = "blob"
  · exact Or.inr (Or.inr (Or.inr ⟨0, [], Or.inl rfl,
      by unfold ghfind.processEntry; rw [if_neg h1, if_neg h2, if_neg h3, if_neg h4, if_pos h5]⟩))
  by_cases h6 : cfg.ftype = "d" ∧ ¬e.typ = "tree"
  · exact Or.inr (Or.inr (Or.inr ⟨0, [], Or.inl rfl,
      by unfold ghfind.processEntry; rw [if_neg h1, if_neg h2, if_neg h3, if_neg h4, if_neg h5, if_pos h6]⟩))
  by_cases h7 : ghfind.sizeRejects cfg.size e.size = true
  · exact Or.inr (Or.inr (Or.inr ⟨0, [], Or.inl rfl,
      by unfold ghfind.processEntry; rw [if_neg h1, if_neg h2, if_neg h3, if_neg h4, if_neg h5, if_neg h6, if_pos h7]⟩))
  by_cases h8 : ¬cfg.noPathRegexp.isEmpty = true ∧ ghfind.matchAny e.path cfg.noPathRegexp = true
  · exact Or.inr (Or.inr (Or.inr ⟨0, [], Or.inl rfl,
      by unfold ghfind.processEntry; rw [if_neg h1, if_neg h2, if_neg h3, if_neg h4, if_neg h5, if_neg h6, if_neg h7, if_pos h8]⟩))
  by_cases h9 : ¬cfg.pathRegexp.isEmpty = true ∧ ¬ghfind.matchAny e.path cfg.pathRegexp = true
  · exact Or.inr (Or.inr (Or.inr ⟨0, [], Or.inl rfl,
      by unfold ghfind.processEntry; rw [if_neg h1, if_neg h2, if_neg h3, if_neg h4, if_neg h5, if_neg h6, if_neg h7, if_neg h8, if_pos h9]⟩))
  by_cases h10 : ¬cfg.noNameRegexp.isEmpty = true ∧ ghfind.matchAny (ghfind.basename e.path) cfg.noNameRegexp = true
  · exact Or.inr (Or.inr (Or.inr ⟨0, [], Or.inl rfl,
      by unfold ghfind.processEntry; rw [if_neg h1, if_neg h2, if_neg h3, if_neg h4, if_neg h5, if_neg h6, if_neg h7, if_neg h8, if_neg h9, if_pos h10]⟩))
  by_cases h11 : ¬cfg.nameRegexp.isEmpty = true ∧ ¬ghfind.matchAny (ghfind.basename e.path) cfg.nameRegexp = true
  · exact Or.inr (Or.inr (Or.inr ⟨0, [], Or.inl rfl,
      by unfold ghfind.processEntry; rw [if_neg h1, if_neg h2, if_neg h3, if_neg h4, if_neg h5, if_neg h6, if_neg h7, if_neg h8, if_neg h9, if_neg h10, if_pos h11]⟩))
  have hred : ghfind.processEntry cfg w repo br m rm e =
      ghfind.contentStage cfg w repo br e := by
    unfold ghfind.processEntry
    rw [if_neg h1, if_neg h2, if_neg h3, if_neg h4, if_neg h5, if_neg h6, if_neg h7, if_neg h8, if_neg h9, if_neg h10, if_neg h11]
  rw [hred]
  exact (contentStage_shape cfg w repo br e).elim
    (fun h => Or.inr (Or.inr (Or.inl h)))
    (fun ⟨d, o, hd, h⟩ => Or.inr (Or.inr (Or.inr ⟨d, o, hd, h⟩)))

/-- Claim C4: the match counters only move one way (each continuing
step adds the same nonnegative amount — at most one — to the global and
per-repository counters); an exhausted global budget stops the whole
walk both at the repository loop and at the entry loop; an exhausted
per-repository budget ends the current repository's entry loop keeping
state; an exhausted per-grep budget stops the line scan at once; and a
file reaching the grep stage bumps both counters exactly once when it
has any match and not at all — with no output — when it has none. -/
theorem match_budgets_govern_walk :
    (∀ (cfg : ghfind.Config) (w : ghfind.World) (repo : github.Repository)
       (br : String) (m rm : Int) (e : ghfind.TreeEntry) dm drm o,
       ghfind.processEntry cfg w repo br m rm e = .cont dm drm o →
       (dm = 0 ∨ dm = 1) ∧ drm = dm) ∧
    (∀ (cfg : ghfind.Config) (w : ghfind.World) (repo : github.Repository)
       (rest : List github.Repository) m prev out warns,
       0 < cfg.maxResults → cfg.maxResults ≤ m →
       ghfind.findLoop cfg w (repo :: rest) m prev out warns =
         ⟨out ++ ghfind.prevEmit cfg prev, warns, none⟩) ∧
    (∀ (cfg : ghfind.Config) (w : ghfind.World) (repo : github.Repository)
       (br : String) (e : ghfind.TreeEntry) rest m rm out,
       0 < cfg.maxResults → cfg.maxResults ≤ m →
       ghfind.processEntries cfg w repo br (e :: rest) m rm out = .stopped out) ∧
    (∀ (cfg : ghfind.Config) (w : ghfind.World) (repo : github.Repository)
       (br : String) (e : ghfind.TreeEntry) rest m rm out,
       ¬(0 < cfg.maxResults ∧ cfg.maxResults ≤ m) →
       0 < cfg.maxRepoResults → cfg.maxRepoResults ≤ rm →
       ghfind.processEntries cfg w repo br (e :: rest) m rm out = .finished m rm out) ∧
    (∀ (p : List Nat → Bool) (L : Int) lines k acc,
       0 < L → L ≤ (acc.length : Int) →
       ghfind.scanLoop p L lines k acc = acc) ∧
    (∀ (cfg : ghfind.Config) (w : ghfind.World) (repo : github.Repository)
       (br : String) (e : ghfind.TreeEntry) (pat : List Nat → Bool),
       cfg.noGrepRegexp = none → cfg.grepRegexp = some pat → e.typ = "blob" →
       ((0 < (ghfind.grep (some (w.contentOf repo.name br e.path)) (some pat)
            cfg.maxGrepResults).found.length →
          ∃ o, ghfind.contentStage cfg w repo br e = .cont 1 1 o) ∧
        ((ghfind.grep (some (w.contentOf repo.name br e.path)) (some pat)
            cfg.maxGrepResults).found.length = 0 →
          ghfind.contentStage cfg w repo br e = .cont 0 0 []))) := by
  refine ⟨?_, ?_, ?_, ?_, ?_, ?_⟩
  · intro cfg w repo br m rm e dm drm o h
    rcases processEntry_shape cfg w repo br m rm e with h1 | h1 | h1 | ⟨d, o2, hd, h1⟩ <;>
      rw [h] at h1
    · cases h1
    · cases h1
    · cases h1
    · injection h1 with e1 e2 e3
      subst e1
      exact ⟨hd, e2⟩
  · intro cfg w repo rest m prev out warns h1 h2
    have hc : (0 < cfg.maxResults ∧ cfg.maxResults ≤ m) := ⟨h1, h2⟩
    show (let out1 := out ++ ghfind.prevEmit cfg prev
      if 0 < cfg.maxResults ∧ cfg.maxResults ≤ m then
        ({ out := out1, warnings := warns, err := none } : ghfind.FindResult)
      else
        let branch := if cfg.branch = "" then repo.defaultBranch else cfg.branch
        match w.getTree repo.name branch with
        | .notFound =>
          ghfind.findLoop cfg w rest m (some (repo.fullName, 0)) out1 warns
        | .conflict =>
          ghfind.findLoop cfg w rest m (some (repo.fullName, 0)) out1 warns
        | .failed => { out := out1, warnings := warns, err := some .treeFetch }
        | .ok entries truncated =>
          let warns2 := if truncated then warns ++ [repo.fullName] else warns
          match ghfind.processEntries cfg w repo branch entries m 0 [] with
          | .stopped o => { out := out1 ++ o, warnings := warns2, err := none }
          | .failed e o => { out := out1 ++ o, warnings := warns2, err := some e }
          | .finished m2 rm2 o =>
            ghfind.findLoop cfg w rest m2 (some (repo.fullName, rm2)) (out1 ++ o) warns2) =
      ({ out := out ++ ghfind.prevEmit cfg prev, warnings := warns, err := none } :
        ghfind.FindResult)
    rw [if_pos hc]
  · intro cfg w repo br e rest m rm out h1 h2
    have hpe : ghfind.processEntry cfg w repo br m rm e = .stopWalk := by
      unfold ghfind.processEntry
      rw [if_pos ⟨h1, h2⟩]
    show (match ghfind.processEntry cfg w repo br m rm e with
      | .stopWalk => ghfind.EntriesOut.stopped out
      | .skipRepo => ghfind.EntriesOut.finished m rm out
      | .cont dm drm o =>
        ghfind.processEntries cfg w repo br rest (m + dm) (rm + drm) (out ++ o)
      | .fail er => ghfind.EntriesOut.failed er out) = .stopped out
    rw [hpe]
  · intro cfg w repo br e rest m rm out hg h1 h2
    have hpe : ghfind.processEntry cfg w repo br m rm e = .skipRepo := by
      unfold ghfind.processEntry
      rw [if_neg hg, if_pos ⟨h1, h2⟩]
    show (match ghfind.processEntry cfg w repo br m rm e with
      | .stopWalk => ghfind.EntriesOut.stopped out
      | .skipRepo => ghfind.EntriesOut.finished m rm out
      | .cont dm drm o =>
        ghfind.processEntries cfg w repo br rest (m + dm) (rm + drm) (out ++ o)
      | .fail er => ghfind.EntriesOut.failed er out) = .finished m rm out
    rw [hpe]
  · intro p L lines k acc hL hfull
    cases lines with
    | nil => rfl
    | cons l rest => rw [ghfind.scanLoop, if_pos ⟨hL, hfull⟩]
  · intro cfg w repo br e pat hng hgr htyp
    have hcs : ghfind.contentStage cfg w repo br e = ghfind.grepStage cfg w repo br e := by
      unfold ghfind.contentStage
      rw [if_neg (by simp [hng])]
    have hgc : ghfind.grepContents cfg w repo br e cfg.maxGrepResults =
        some (ghfind.grep (some (w.contentOf repo.name br e.path)) (some pat)
          cfg.maxGrepResults) := by
      unfold ghfind.grepContents
      rw [hgr]
    constructor
    · intro hlen
      refine ⟨if cfg.noMatches = true then []
        else (ghfind.grep (some (w.contentOf repo.name br e.path)) (some pat)
            cfg.maxGrepResults).found.map
          (fun mt => ghfind.Out.grepLine repo.fullName e.path mt.lineno mt.line), ?_⟩
      rw [hcs]
      unfold ghfind.grepStage
      rw [if_pos ⟨by simp [hgr], htyp⟩, hgc]
      simp [hlen]
    · intro hlen
      rw [hcs]
      unfold ghfind.grepStage
      rw [if_pos ⟨by simp [hgr], htyp⟩, hgc]
      have hnil : (ghfind.grep (some (w.contentOf repo.name br e.path)) (some pat)
          cfg.maxGrepResults).found = [] := List.length_eq_zero.mp hlen
      simp [hnil]

/-- Witness for C4 at concrete configurations: an ordinary entry adds
one to both counters; a walk with global budget 1 already spent stops
at the repository loop and at the entry loop; a spent per-repository
budget ends the entry loop in place; a full scan accumulator stops the
line scan; a matching file at the grep stage counts once and a
non-matching one not at all. -/
theorem match_budgets_govern_walk_witness :
    (((1 : Int) = 0 ∨ (1 : Int) = 1) ∧ (1 : Int) = 1) ∧
    ghfind.findLoop { cfgBase with maxResults := 1 } sampleWorld [sampleRepo]
      1 none [] [] = ⟨[], [], none⟩ ∧
    ghfind.processEntries { cfgBase with maxResults := 1 } sampleWorld sampleRepo
      "main" [⟨"a", "blob", 1⟩] 1 0 [] = .stopped [] ∧
    ghfind.processEntries { cfgBase with maxRepoResults := 1 } sampleWorld sampleRepo
      "main" [⟨"a", "blob", 1⟩] 0 1 [] = .finished 0 1 [] ∧
    ghfind.scanLoop (fun _ => true) 1 [[97]] 0 [⟨[98], 1⟩] = [⟨[98], 1⟩] ∧
    (∃ o, ghfind.contentStage
        { cfgBase with grepRegexp := some (fun l => l = [104, 101, 108, 108, 111]) }
        sampleWorld sampleRepo "main" ⟨"README.md", "blob", 10⟩ = .cont 1 1 o) ∧
    ghfind.contentStage { cfgBase with grepRegexp := some (fun _ => false) }
      sampleWorld sampleRepo "main" ⟨"README.md", "blob", 10⟩ = .cont 0 0 [] :=
  ⟨match_budgets_govern_walk.1 cfgBase sampleWorld sampleRepo "main" 0 0
      ⟨"README.md", "blob", 10⟩ 1 1 [ghfind.Out.plainLine "o/r1" "README.md"] rfl,
   (match_budgets_govern_walk.2.1 { cfgBase with maxResults := 1 } sampleWorld
      sampleRepo [] 1 none [] [] (by decide) (by decide)).trans rfl,
   match_budgets_govern_walk.2.2.1 { cfgBase with maxResults := 1 } sampleWorld
      sampleRepo "main" ⟨"a", "blob", 1⟩ [] 1 0 [] (by decide) (by decide),
   match_budgets_govern_walk.2.2.2.1 { cfgBase with maxRepoResults := 1 } sampleWorld
      sampleRepo "main" ⟨"a", "blob", 1⟩ [] 0 1 [] (by decide) (by decide) (by decide),
   match_budgets_govern_walk.2.2.2.2.1 (fun _ => true) 1 [[97]] 0 [⟨[98], 1⟩]
      (by decide) (by decide),
   (match_budgets_govern_walk.2.2.2.2.2
      { cfgBase with grepRegexp := some (fun l => l = [104, 101, 108, 108, 111]) }
      sampleWorld sampleRepo "main" ⟨"README.md", "blob", 10⟩
      (fun l => l = [104, 101, 108, 108, 111]) rfl rfl rfl).1 (by decide),
   (match_budgets_govern_walk.2.2.2.2.2
      { cfgBase with grepRegexp := some (fun _ => false) }
      sampleWorld sampleRepo "main" ⟨"README.md", "blob", 10⟩
      (fun _ => false) rfl rfl rfl).2 (by decide)⟩

/-- With the global budget off, processing an entry does not depend on
the global counter. -/
theorem processEntry_m_indep {cfg : ghfind.Config} (h0 : cfg.maxResults = 0)
    (w : ghfind.World) (repo : github.Repository) (br : String)
    (m rm : Int) (e : ghfind.TreeEntry) :
    ghfind.processEntry cfg w repo br m rm e =
      ghfind.processEntry cfg w repo br 0 rm e := by
  unfold ghfind.processEntry
  rw [if_neg (show ¬(0 < cfg.maxResults ∧ cfg.maxResults ≤ m) by omega),
    if_neg (show ¬(0 < cfg.maxResults ∧ cfg.maxResults ≤ 0) by omega)]

/-- Entry-loop step equation for a continuing entry. -/
theorem processEntries_cons_cont {cfg : ghfind.Config} {w : ghfind.World}
    {repo : github.Repository} {br : String} {m rm dm drm : Int}
    {e : ghfind.TreeEntry} {o : List ghfind.Out}
    (h : ghfind.processEntry cfg w repo br m rm e = .cont dm drm o)
    (rest : List ghfind.TreeEntry) (out : List ghfind.Out) :
    ghfind.processEntries cfg w repo br (e :: rest) m rm out =
      ghfind.processEntries cfg w repo br rest (m + dm) (rm + drm) (out ++ o) := by
  simp only [ghfind.processEntries]
  rw [h]

/-- Entry-loop step equation for a skipping entry. -/
theorem processEntries_cons_skip {cfg : ghfind.Config} {w : ghfind.World}
    {repo : github.Repository} {br : String} {m rm : Int} {e : ghfind.TreeEntry}
    (h : ghfind.processEntry cfg w repo br m rm e = .skipRepo)
    (rest : List ghfind.TreeEntry) (out : List ghfind.Out) :
    ghfind.processEntries cfg w repo br (e :: rest) m rm out = .finished m rm out := by
  simp only [ghfind.processEntries]
  rw [h]

/-- Entry-loop step equation for a failing entry. -/
theorem processEntries_cons_fail {cfg : ghfind.Config} {w : ghfind.World}
    {repo : github.Repository} {br : String} {m rm : Int} {e : ghfind.TreeEntry}
    {er : ghfind.WalkErr}
    (h : ghfind.processEntry cfg w repo br m rm e = .fail er)
    (rest : List ghfind.TreeEntry) (out : List ghfind.Out) :
    ghfind.processEntries cfg w repo br (e :: rest) m rm out = .failed er out := by
  simp only [ghfind.processEntries]
  rw [h]

/-- In no-matches mode the grep/emission stage emits nothing and adds
zero or one to both counters. -/
theorem grepStage_nm {cfg : ghfind.Config} (hnm : cfg.noMatches = true)
    (w : ghfind.World) (repo : github.Repository) (br : String) (e : ghfind.TreeEntry) :
    ∃ d, (d = 0 ∨ d = 1) ∧ ghfind.grepStage cfg w repo br e = .cont d d [] := by
  by_cases h : (cfg.grepRegexp.isSome = true ∧ e.typ = "blob")
  · obtain ⟨pat, hpat⟩ := Option.isSome_iff_exists.mp h.1
    have hgc : ghfind.grepContents cfg w repo br e cfg.maxGrepResults =
        some (ghfind.grep (some (w.contentOf repo.name br e.path)) (some pat)
          cfg.maxGrepResults) := by
      unfold ghfind.grepContents
      rw [hpat]
    by_cases hl : 0 < (ghfind.grep (some (w.contentOf repo.name br e.path)) (some pat)
        cfg.maxGrepResults).found.length
    · refine ⟨1, Or.inr rfl, ?_⟩
      unfold ghfind.grepStage
      rw [if_pos h, hgc]
      simp [hl, hnm]
    · refine ⟨0, Or.inl rfl, ?_⟩
      unfold ghfind.grepStage
      rw [if_pos h, hgc]
      simp [hl, hnm]
  · refine ⟨1, Or.inr rfl, ?_⟩
    unfold ghfind.grepStage
    rw [if_neg h]
    simp [hnm]

/-- In no-matches mode the whole content stage fails or continues with
no output and equal increments of zero or one. -/
theorem contentStage_nm {cfg : ghfind.Config} (hnm : cfg.noMatches = true)
    (w : ghfind.World) (repo : github.Repository) (br : String) (e : ghfind.TreeEntry) :
    ghfind.contentStage cfg w repo br e = .fail .nilDeref ∨
    ∃ d, (d = 0 ∨ d = 1) ∧ ghfind.contentStage cfg w repo br e = .cont d d [] := by
  by_cases h : (cfg.noGrepRegexp.isSome = true ∧ e.typ = "blob")
  · cases hg : ghfind.grepContents cfg w repo br e 1 with
    | none =>
      left
      unfold ghfind.contentStage
      rw [if_pos h, hg]
    | some results =>
      have hred : ghfind.contentStage cfg w repo br e =
          if 0 < results.found.length then .cont 0 0 []
          else ghfind.grepStage cfg w repo br e := by
        unfold ghfind.contentStage
        rw [if_pos h, hg]
      by_cases hl : 0 < results.found.length
      · exact Or.inr ⟨0, Or.inl rfl, by rw [hred, if_pos hl]⟩
      · obtain ⟨d, hd, hgs⟩ := grepStage_nm hnm w repo br e
        exact Or.inr ⟨d, hd, by rw [hred, if_neg hl]; exact hgs⟩
  · obtain ⟨d, hd, hgs⟩ := grepStage_nm hnm w repo br e
    refine Or.inr ⟨d, hd, ?_⟩
    have hred : ghfind.contentStage cfg w repo br e =
        ghfind.grepStage cfg w repo br e := by
      unfold ghfind.contentStage
      rw [if_neg h]
    rw [hred]
    exact hgs

/-- With the global budget off and no-matches mode on, processing an
entry skips the repository, fails, or continues with no output and
equal increments of zero or one. -/
theorem processEntry_nm {cfg : ghfind.Config} (h0 : cfg.maxResults = 0)
    (hnm : cfg.noMatches = true) (w : ghfind.World) (repo : github.Repository)
    (br : String) (m rm : Int) (e : ghfind.TreeEntry) :
    ghfind.processEntry cfg w repo br m rm e = .skipRepo ∨
    ghfind.processEntry cfg w repo br m rm e = .fail .nilDeref ∨
    ∃ d, (d = 0 ∨ d = 1) ∧
      ghfind.processEntry cfg w repo br m rm e = .cont d d [] := by
  have hg1 : ¬(0 < cfg.maxResults ∧ cfg.maxResults ≤ m) := by omega
  by_cases h2 : 0 < cfg.maxRepoResults ∧ cfg.maxRepoResults ≤ rm
  · exact Or.inl (by unfold ghfind.processEntry; rw [if_neg hg1, if_pos h2])
  by_cases h3 : 0 < cfg.minDepth ∧ ghfind.levels e.path < cfg.minDepth
  · exact Or.inr (Or.inr ⟨0, Or.inl rfl,
      by unfold ghfind.processEntry; rw [if_neg hg1, if_neg h2, if_pos h3]⟩)
  by_cases h4 : 0 < cfg.maxDepth ∧ cfg.maxDepth < ghfind.levels e.path
  · exact Or.inr (Or.inr ⟨0, Or.inl rfl,
      by unfold ghfind.processEntry; rw [if_neg hg1, if_neg h2, if_neg h3, if_pos h4]⟩)
  by_cases h5 : cfg.ftype = "f" ∧ ¬e.typ = "blob"
  · exact Or.inr (Or.inr ⟨0, Or.inl rfl,
      by unfold ghfind.processEntry; rw [if_neg hg1, if_neg h2, if_neg h3, if_neg h4, if_pos h5]⟩)
  by_cases h6 : cfg.ftype = "d" ∧ ¬e.typ = "tree"
  · exact Or.inr (Or.inr ⟨0, Or.inl rfl,
      by unfold ghfind.processEntry; rw [if_neg hg1, if_neg h2, if_neg h3, if_neg h4, if_neg h5, if_pos h6]⟩)
  by_cases h7 : ghfind.sizeRejects cfg.size e.size = true
  · exact Or.inr (Or.inr ⟨0, Or.inl rfl,
      by unfold ghfind.processEntry; rw [if_neg hg1, if_neg h2, if_neg h3, if_neg h4, if_neg h5, if_neg h6, if_pos h7]⟩)
  by_cases h8 : ¬cfg.noPathRegexp.isEmpty = true ∧ ghfind.matchAny e.path cfg.noPathRegexp = true
  · exact Or.inr (Or.inr ⟨0, Or.inl rfl,
      by unfold ghfind.processEntry; rw [if_neg hg1, if_neg h2, if_neg h3, if_neg h4, if_neg h5, if_neg h6, if_neg h7, if_pos h8]⟩)
  by_cases h9 : ¬cfg.pathRegexp.isEmpty = true ∧ ¬ghfind.matchAny e.path cfg.pathRegexp = true
  · exact Or.inr (Or.inr ⟨0, Or.inl rfl,
      by unfold ghfind.processEntry; rw [if_neg hg1, if_neg h2, if_neg h3, if_neg h4, if_neg h5, if_neg h6, if_neg h7, if_neg h8, if_pos h9]⟩)
  by_cases h10 : ¬cfg.noNameRegexp.isEmpty = true ∧ ghfind.matchAny (ghfind.basename e.path) cfg.noNameRegexp = true
  · exact Or.inr (Or.inr ⟨0, Or.inl rfl,
      by unfold ghfind.processEntry; rw [if_neg hg1, if_neg h2, if_neg h3, if_neg h4, if_neg h5, if_neg h6, if_neg h7, if_neg h8, if_neg h9, if_pos h10]⟩)
  by_cases h11 : ¬cfg.nameRegexp.isEmpty = true ∧ ¬ghfind.matchAny (ghfind.basename e.path) cfg.nameRegexp = true
  · exact Or.inr (Or.inr ⟨0, Or.inl rfl,
      by unfold ghfind.processEntry; rw [if_neg hg1, if_neg h2, if_neg h3, if_neg h4, if_neg h5, if_neg h6, if_neg h7, if_neg h8, if_neg h9, if_neg h10, if_pos h11]⟩)
  have hred : ghfind.processEntry cfg w repo br m rm e =
      ghfind.contentStage cfg w repo br e := by
    unfold ghfind.processEntry
    rw [if_neg hg1, if_neg h2, if_neg h3, if_neg h4, if_neg h5, if_neg h6, if_neg h7, if_neg h8, if_neg h9, if_neg h10, if_neg h11]
  rcases contentStage_nm hnm w repo br e with hf | ⟨d, hd, hc⟩
  · exact Or.inr (Or.inl (hred.trans hf))
  · exact Or.inr (Or.inr ⟨d, hd, hred.trans hc⟩)

/-- With the global budget off and no-matches mode on, the entry loop
either fails or finishes, emits nothing, and moves both counters up by
the same amount — independently of the incoming global counter. -/
theorem processEntries_nm_main {cfg : ghfind.Config} (h0 : cfg.maxResults = 0)
    (hnm : cfg.noMatches = true) (w : ghfind.World) (repo : github.Repository)
    (br : String) :
    ∀ (entries : List ghfind.TreeEntry) (rm : Int),
      (∃ er, ∀ m out,
        ghfind.processEntries cfg w repo br entries m rm out = .failed er out) ∨
      (∃ dd rm2, rm2 = rm + dd ∧ ∀ m out,
        ghfind.processEntries cfg w repo br entries m rm out =
          .finished (m + dd) rm2 out) := by
  intro entries
  induction entries with
  | nil =>
    intro rm
    right
    refine ⟨0, rm, by omega, fun m out => ?_⟩
    simp [ghfind.processEntries]
  | cons e rest ih =>
    intro rm
    rcases processEntry_nm h0 hnm w repo br 0 rm e with hskip | hfail | ⟨d, hd, hcont⟩
    · right
      refine ⟨0, rm, by omega, fun m out => ?_⟩
      have hm : ghfind.processEntry cfg w repo br m rm e = .skipRepo :=
        (processEntry_m_indep h0 w repo br m rm e).trans hskip
      rw [processEntries_cons_skip hm rest out]
      simp
    · left
      refine ⟨.nilDeref, fun m out => ?_⟩
      have hm : ghfind.processEntry cfg w repo br m rm e = .fail .nilDeref :=
        (processEntry_m_indep h0 w repo br m rm e).trans hfail
      rw [processEntries_cons_fail hm rest out]
    · rcases ih (rm + d) with ⟨er, hf⟩ | ⟨dd, rm2, hrm2, hfin⟩
      · left
        refine ⟨er, fun m out => ?_⟩
        have hm : ghfind.processEntry cfg w repo br m rm e = .cont d d [] :=
          (processEntry_m_indep h0 w repo br m rm e).trans hcont
        rw [processEntries_cons_cont hm rest out, List.append_nil]
        exact hf (m + d) out
      · right
        refine ⟨d + dd, rm2, by omega, fun m out => ?_⟩
        have hm : ghfind.processEntry cfg w repo br m rm e = .cont d d [] :=
          (processEntry_m_indep h0 w repo br m rm e).trans hcont
        rw [processEntries_cons_cont hm rest out, List.append_nil, hfin (m + d) out]
        congr 1
        omega

/-- Repository-loop step equation for a tolerated tree-fetch status
(404 or 409): skip the repository with a zero match count. -/
theorem findLoop_cons_skipRepo {cfg : ghfind.Config} {w : ghfind.World}
    {repo : github.Repository} {rest : List github.Repository} {m : Int}
    {prev : Option (String × Int)} {out : List ghfind.Out} {warns : List String}
    (hglob : ¬(0 < cfg.maxResults ∧ cfg.maxResults ≤ m))
    (h : w.getTree repo.name (if cfg.branch = "" then repo.defaultBranch else cfg.branch)
        = .notFound ∨
      w.getTree repo.name (if cfg.branch = "" then repo.defaultBranch else cfg.branch)
        = .conflict) :
    ghfind.findLoop cfg w (repo :: rest) m prev out warns =
      ghfind.findLoop cfg w rest m (some (repo.fullName, 0))
        (out ++ ghfind.prevEmit cfg prev) warns := by
  rcases h with h | h <;>
    · simp only [ghfind.findLoop]
      rw [if_neg hglob, h]

/-- Repository-loop step equation for a hard tree-fetch failure. -/
theorem findLoop_cons_treeFailed {cfg : ghfind.Config} {w : ghfind.World}
    {repo : github.Repository} {rest : List github.Repository} {m : Int}
    {prev : Option (String × Int)} {out : List ghfind.Out} {warns : List String}
    (hglob : ¬(0 < cfg.maxResults ∧ cfg.maxResults ≤ m))
    (h : w.getTree repo.name (if cfg.branch = "" then repo.defaultBranch else cfg.branch)
        = .failed) :
    ghfind.findLoop cfg w (repo :: rest) m prev out warns =
      ⟨out ++ ghfind.prevEmit cfg prev, warns, some .treeFetch⟩ := by
  simp only [ghfind.findLoop]
  rw [if_neg hglob, h]

/-- Repository-loop step equation when the entry loop finishes. -/
theorem findLoop_cons_entries_fin {cfg : ghfind.Config} {w : ghfind.World}
    {repo : github.Repository} {rest : List github.Repository} {m m2 rm2 : Int}
    {prev : Option (String × Int)} {out o : List ghfind.Out} {warns : List String}
    {entries : List ghfind.TreeEntry} {truncated : Bool}
    (hglob : ¬(0 < cfg.maxResults ∧ cfg.maxResults ≤ m))
    (hfetch : w.getTree repo.name
        (if cfg.branch = "" then repo.defaultBranch else cfg.branch)
      = .ok entries truncated)
    (hproc : ghfind.processEntries cfg w repo
        (if cfg.branch = "" then repo.defaultBranch else cfg.branch) entries m 0 []
      = .finished m2 rm2 o) :
    ghfind.findLoop cfg w (repo :: rest) m prev out warns =
      ghfind.findLoop cfg w rest m2 (some (repo.fullName, rm2))
        ((out ++ ghfind.prevEmit cfg prev) ++ o)
        (if truncated then warns ++ [repo.fullName] else warns) := by
  simp only [ghfind.findLoop]
  rw [if_neg hglob, hfetch]
  simp only [hproc]

/-- Repository-loop step equation when the entry loop fails. -/
theorem findLoop_cons_entries_failed {cfg : ghfind.Config} {w : ghfind.World}
    {repo : github.Repository} {rest : List github.Repository} {m : Int}
    {er : ghfind.WalkErr}
    {prev : Option (String × Int)} {out o : List ghfind.Out} {warns : List String}
    {entries : List ghfind.TreeEntry} {truncated : Bool}
    (hglob : ¬(0 < cfg.maxResults ∧ cfg.maxResults ≤ m))
    (hfetch : w.getTree repo.name
        (if cfg.branch = "" then repo.defaultBranch else cfg.branch)
      = .ok entries truncated)
    (hproc : ghfind.processEntries cfg w repo
        (if cfg.branch = "" then repo.defaultBranch else cfg.branch) entries m 0 []
      = .failed er o) :
    ghfind.findLoop cfg w (repo :: rest) m prev out warns =
      ⟨(out ++ ghfind.prevEmit cfg prev) ++ o,
        (if truncated then warns ++ [repo.fullName] else warns), some er⟩ := by
  simp only [ghfind.findLoop]
  rw [if_neg hglob, hfetch]
  simp only [hproc]

/-- In no-matches mode with the global budget off, a successful walk
prints exactly one `repoLine` per zero-match repository, in order, and
nothing else. -/
theorem findLoop_noMatches {cfg : ghfind.Config} (hnm : cfg.noMatches = true)
    (h0 : cfg.maxResults = 0) (w : ghfind.World) :
    ∀ (repos : List github.Repository) (m : Int) (prev : Option (String × Int))
      (out : List ghfind.Out) (warns : List String),
      (ghfind.findLoop cfg w repos m prev out warns).err = none →
      (ghfind.findLoop cfg w repos m prev out warns).out =
        out ++ ghfind.prevEmit cfg prev ++
          (repos.filter (fun r => ghfind.repoMatchCount cfg w r == 0)).map
            (fun r => ghfind.Out.repoLine r.fullName) := by
  intro repos
  induction repos with
  | nil =>
    intro m prev out warns _
    simp [ghfind.findLoop]
  | cons repo rest ih =>
    intro m prev out warns herr
    have hglob : ¬(0 < cfg.maxResults ∧ cfg.maxResults ≤ m) := by omega
    cases hfetch : w.getTree repo.name
        (if cfg.branch = "" then repo.defaultBranch else cfg.branch) with
    | notFound =>
      rw [findLoop_cons_skipRepo hglob (Or.inl hfetch)] at herr ⊢
      rw [ih _ _ _ _ herr]
      have hcount : ghfind.repoMatchCount cfg w repo = 0 := by
        simp only [ghfind.repoMatchCount]
        rw [hfetch]
      rw [List.filter_cons]
      simp [hcount, ghfind.prevEmit, hnm]
    | conflict =>
      rw [findLoop_cons_skipRepo hglob (Or.inr hfetch)] at herr ⊢
      rw [ih _ _ _ _ herr]
      have hcount : ghfind.repoMatchCount cfg w repo = 0 := by
        simp only [ghfind.repoMatchCount]
        rw [hfetch]
      rw [List.filter_cons]
      simp [hcount, ghfind.prevEmit, hnm]
    | failed =>
      rw [findLoop_cons_treeFailed hglob hfetch] at herr
      simp at herr
    | ok entries truncated =>
      rcases processEntries_nm_main h0 hnm w repo
          (if cfg.branch = "" then repo.defaultBranch else cfg.branch) entries 0 with
        ⟨er, hfail⟩ | ⟨dd, rm2, hrm2, hfin⟩
      · rw [findLoop_cons_entries_failed hglob hfetch (hfail m [])] at herr
        simp at herr
      · rw [findLoop_cons_entries_fin hglob hfetch (hfin m [])] at herr ⊢
        rw [ih _ _ _ _ herr]
        have hcount : ghfind.repoMatchCount cfg w repo = rm2 := by
          simp only [ghfind.repoMatchCount]
          rw [hfetch]
          simp only [hfin 0 []]
        rw [List.filter_cons]
        by_cases hrm0 : rm2 = 0
        · simp [hcount, hrm0, ghfind.prevEmit, hnm]
        · simp [hcount, hrm0, ghfind.prevEmit, hnm]

/-- Claim C6: entering no-matches mode forces the per-repository match
budget to 1, the per-grep budget to 1 and the global budget to
unlimited; on a successful walk under the normalised configuration the
output is exactly one `repoLine` with the repository's full name per
zero-match repository, in order — and nothing per match. -/
theorem no_matches_mode_reporting (cfg : ghfind.Config) (w : ghfind.World)
    (repos : List github.Repository) (hnm : cfg.noMatches = true)
    (herr : (ghfind.find (ghfind.normalize cfg) w repos).err = none) :
    (ghfind.normalize cfg).maxResults = 0 ∧
    (ghfind.normalize cfg).maxRepoResults = 1 ∧
    (ghfind.normalize cfg).maxGrepResults = 1 ∧
    (ghfind.find (ghfind.normalize cfg) w repos).out =
      (repos.filter (fun r => ghfind.repoMatchCount (ghfind.normalize cfg) w r == 0)).map
        (fun r => ghfind.Out.repoLine r.fullName) := by
  have hn1 : (ghfind.normalize cfg).maxResults = 0 := by
    unfold ghfind.normalize
    rw [if_pos hnm]
  have hn2 : (ghfind.normalize cfg).maxRepoResults = 1 := by
    unfold ghfind.normalize
    rw [if_pos hnm]
  have hn3 : (ghfind.normalize cfg).maxGrepResults = 1 := by
    unfold ghfind.normalize
    rw [if_pos hnm]
  have hnm2 : (ghfind.normalize cfg).noMatches = true := by
    unfold ghfind.normalize
    rw [if_pos hnm]
    exact hnm
  refine ⟨hn1, hn2, hn3, ?_⟩
  have hmain := findLoop_noMatches hnm2 hn1 w repos 0 none [] [] herr
  simpa [ghfind.prevEmit] using hmain

/-- Witness for C6: with a name filter matching only `README.md`,
repository `r1` (which contains it) is not reported while `r2` (whose
tree fetch 404s, hence zero matches) is reported exactly once. -/
theorem no_matches_mode_reporting_witness :
    (ghfind.find
      (ghfind.normalize
        { cfgBase with
            noMatches := true,
            nameRegexp := [fun s => s = "README.md"] })
      sampleWorld [sampleRepo, sampleRepo2]).out = [.repoLine "o/r2"] :=
  ((no_matches_mode_reporting
    { cfgBase with
        noMatches := true,
        nameRegexp := [fun s => s = "README.md"] }
    sampleWorld [sampleRepo, sampleRepo2] rfl (by decide)).2.2.2).trans (by decide)
